import Mathlib

/-!
Verification development for the blog-builder markdown converter
(`build_blog.py`).  Strings are modelled as lists of characters; every
Python function used by the claims is translated into an executable Lean
definition, and the claims are settled as theorems about those
definitions.

Source mapping:
* `process_inline_formatting` (lines 176-186)  →  `fmt`
* `markdown_to_html` (lines 46-174)            →  `lineStep` / `parseLines` / `markdown_to_html`
* `insert_in_article_ads` (lines 188-245)      →  `insert_in_article_ads`
-/

set_option maxHeartbeats 1000000
set_option maxRecDepth 100000

/-- Strings of the Python program are modelled as lists of characters. -/
abbrev Str := List Char

/-- Convenience: turn a Lean string literal into the `Str` model. -/
def strL (s : String) : Str := s.data

/-- The backtick character (code 96). -/
def btick : Char := Char.ofNat 96

/-- Python `s.startswith(p)`: `p` is a prefix of `s`. -/
def leadsWith : Str → Str → Bool
  | [], _ => true
  | _ :: _, [] => false
  | a :: p, b :: s => a == b && leadsWith p s

/-- Python `s.endswith(p)`. -/
def trailsWith (p s : Str) : Bool := leadsWith p.reverse s.reverse

/-- Whitespace characters stripped by Python `str.strip()` (ASCII set). -/
def isPySpace (c : Char) : Bool :=
  c == ' ' || c == '\t' || c == '\n' || c == '\r' || c == Char.ofNat 11 || c == Char.ofNat 12

/-- Python `str.strip()`: remove leading and trailing whitespace. -/
def strip (s : Str) : Str :=
  ((s.dropWhile isPySpace).reverse.dropWhile isPySpace).reverse

/-- Python `s.split(sep)` for a one-character separator. -/
def splitChar (sep : Char) : Str → List Str
  | [] => [[]]
  | c :: rest =>
    if c == sep then [] :: splitChar sep rest
    else
      match splitChar sep rest with
      | [] => [[c]]
      | g :: gs => (c :: g) :: gs

/-- Python `sep.join(parts)` for a one-character separator. -/
def joinChar (sep : Char) : List Str → Str
  | [] => []
  | [x] => x
  | x :: y :: ys => x ++ sep :: joinChar sep (y :: ys)

/-- Python `''.join(parts)`. -/
def strConcat : List Str → Str
  | [] => []
  | x :: xs => x ++ strConcat xs

/-!  Inline formatter: `process_inline_formatting`, lines 176-186.

Each `re.sub` call is a left-to-right scan: at each position the pattern is
tried; on success the replacement is emitted and scanning resumes after the
match, otherwise one character is copied and scanning advances by one.
The scanners recurse on a fuel argument equal to the input length; every
step consumes at least one input character, so the fuel never runs out and
the `fuel = 0` branch is dead code kept only to make the recursion
structural (and hence kernel-evaluable). -/

/-- Lazy search for the closing `**` of `re.sub(r'\*\*(.*?)\*\*', ...)`:
returns the (newline-free) span before the first `**` and the remainder
after it. -/
def findClose2 : Str → Option (Str × Str)
  | [] => none
  | a :: rest =>
    if a == '*' && leadsWith (strL "*") rest then some ([], rest.drop 1)
    else if a == '\n' then none
    else (findClose2 rest).map (fun pr => (a :: pr.1, pr.2))

/-- Lazy search for the closing `*` of `re.sub(r'\*(.*?)\*', ...)`. -/
def findClose1 : Str → Option (Str × Str)
  | [] => none
  | a :: rest =>
    if a == '*' then some ([], rest)
    else if a == '\n' then none
    else (findClose1 rest).map (fun pr => (a :: pr.1, pr.2))

/-- Bold pass: `re.sub(r'\*\*(.*?)\*\*', r'<strong>\1</strong>', text)`. -/
def subBoldGo : Nat → Str → Str
  | 0, s => s
  | fuel + 1, s =>
    match s with
    | [] => []
    | '*' :: '*' :: rest =>
      match findClose2 rest with
      | some (inner, after) =>
        strL "<strong>" ++ inner ++ strL "</strong>" ++ subBoldGo fuel after
      | none => '*' :: subBoldGo fuel ('*' :: rest)
    | c :: rest => c :: subBoldGo fuel rest

def subBold (s : Str) : Str := subBoldGo s.length s

/-- Italic pass: `re.sub(r'\*(.*?)\*', r'<em>\1</em>', text)`. -/
def subItalGo : Nat → Str → Str
  | 0, s => s
  | fuel + 1, s =>
    match s with
    | [] => []
    | '*' :: rest =>
      match findClose1 rest with
      | some (inner, after) =>
        strL "<em>" ++ inner ++ strL "</em>" ++ subItalGo fuel after
      | none => '*' :: subItalGo fuel rest
    | c :: rest => c :: subItalGo fuel rest

def subItal (s : Str) : Str := subItalGo s.length s

/-- Inline-code pass: `re.sub(r'`([^`]+)`', r'<code>\1</code>', text)`. -/
def subCodeGo : Nat → Str → Str
  | 0, s => s
  | fuel + 1, s =>
    match s with
    | [] => []
    | c :: rest =>
      if c == btick then
        let inner := rest.takeWhile (fun d => !(d == btick))
        match rest.dropWhile (fun d => !(d == btick)) with
        | _ :: after =>
          if inner.isEmpty then c :: subCodeGo fuel rest
          else (strL "<code>" ++ inner ++ strL "</code>") ++ subCodeGo fuel after
        | [] => c :: subCodeGo fuel rest
      else c :: subCodeGo fuel rest

def subCode (s : Str) : Str := subCodeGo s.length s

/-- Link pass: `re.sub(r'\[([^\]]+)\]\(([^)]+)\)', r'<a href="\2">\1</a>', text)`. -/
def subLinkGo : Nat → Str → Str
  | 0, s => s
  | fuel + 1, s =>
    match s with
    | [] => []
    | c :: rest =>
      if c == '[' then
        let label := rest.takeWhile (fun d => !(d == ']'))
        match rest.dropWhile (fun d => !(d == ']')) with
        | ']' :: '(' :: r3 =>
          let url := r3.takeWhile (fun d => !(d == ')'))
          match r3.dropWhile (fun d => !(d == ')')) with
          | ')' :: after =>
            if label.isEmpty || url.isEmpty then c :: subLinkGo fuel rest
            else
              strL "<a href=" ++ [Char.ofNat 34] ++ url ++ [Char.ofNat 34, '>']
                ++ label ++ strL "</a>" ++ subLinkGo fuel after
          | _ => c :: subLinkGo fuel rest
        | _ => c :: subLinkGo fuel rest
      else c :: subLinkGo fuel rest

def subLink (s : Str) : Str := subLinkGo s.length s

/-- `process_inline_formatting` (lines 176-186): bold, then italic, then
inline code, then links. -/
def fmt (s : Str) : Str := subLink (subCode (subItal (subBold s)))

/-!  Block parser: `markdown_to_html`, lines 46-174. -/

/-- Parser state of `markdown_to_html`: the accumulated output fragments
and the mutable flags/buffers of the line loop (lines 49-54). -/
structure PState where
  result : List Str
  in_list : Bool
  in_code_block : Bool
  in_table : Bool
  code_block_content : List Str
  table_rows : List (List Str)
deriving DecidableEq, Repr

def initState : PState := ⟨[], false, false, false, [], []⟩

/-- Line 61: `line.strip().startswith('```')`. -/
def isFence (l : Str) : Bool := leadsWith (strL "```") (strip l)

/-- Line 85: `'|' in line and line.strip().startswith('|') and
line.strip().endswith('|')`. -/
def isTableRow (l : Str) : Bool :=
  l.contains '|' && leadsWith (strL "|") (strip l) && trailsWith (strL "|") (strip l)

/-- Line 91: `[cell.strip() for cell in line.strip().split('|')[1:-1]]`. -/
def cellsOf (l : Str) : List Str :=
  (((splitChar '|' (strip l)).drop 1).dropLast).map strip

/-- Line 109: `start_row = 2 if len(table_rows) > 1 and
all('-' in cell for cell in table_rows[1]) else 1`. -/
def startRow (rows : List (List Str)) : Nat :=
  match rows with
  | _ :: r2 :: _ => if r2.all (fun c => c.contains '-') then 2 else 1
  | _ => 1

/-- Lines 103-105: one `<th>` fragment per header cell. -/
def thFrag (c : Str) : Str := strL "<th>" ++ fmt c ++ strL "</th>"

/-- Lines 116-118: one `<td>` fragment per body cell. -/
def tdFrag (c : Str) : Str := strL "<td>" ++ fmt c ++ strL "</td>"

/-- Lines 101-106: the `<thead>` fragments built from the first row. -/
def headerFrags (r : List Str) : List Str :=
  strL "<thead><tr>" :: r.map thFrag ++ [strL "</tr></thead>"]

/-- Lines 114-119: the fragments of one `<tbody>` row. -/
def rowFrags (r : List Str) : List Str :=
  strL "<tr>" :: r.map tdFrag ++ [strL "</tr>"]

/-- Lines 112-120: the `<tbody>` fragments (emitted only when body rows
exist, i.e. `len(table_rows) > start_row`). -/
def bodyFrags (rows : List (List Str)) : List Str :=
  if rows.isEmpty then []
  else strL "<tbody>" :: rows.flatMap rowFrags ++ [strL "</tbody>"]

/-- Lines 96-122: the fragments emitted when a table is closed.  The
`if table_rows:` guard of line 97 is the `[]` case. -/
def tableHTML (rows : List (List Str)) : List Str :=
  match rows with
  | [] => []
  | r1 :: _ =>
    strL "<table>" :: headerFrags r1
      ++ bodyFrags (rows.drop (startRow rows)) ++ [strL "</table>"]

/-- Lines 129-137: header prefixes, checked `### `, `## `, `# ` in order. -/
def isHeader (l : Str) : Bool :=
  leadsWith (strL "### ") l || leadsWith (strL "## ") l || leadsWith (strL "# ") l

def headerFrag (l : Str) : Str :=
  if leadsWith (strL "### ") l then strL "<h3>" ++ fmt (l.drop 4) ++ strL "</h3>"
  else if leadsWith (strL "## ") l then strL "<h2>" ++ fmt (l.drop 3) ++ strL "</h2>"
  else strL "<h1>" ++ fmt (l.drop 2) ++ strL "</h1>"

/-- Line 139: `line.strip().startswith('- ') or line.strip().startswith('* ')`. -/
def isListLine (l : Str) : Bool :=
  leadsWith (strL "- ") (strip l) || leadsWith (strL "* ") (strip l)

/-- Lines 152-163: the single fragment of the default branch — empty line,
horizontal rule, paragraph, or pass-through of a line starting with `<`. -/
def defaultFrag (l : Str) : Str :=
  if (strip l).isEmpty then []
  else if strip l == strL "---" then strL "<hr>"
  else if !leadsWith (strL "<") (strip l) then strL "<p>" ++ fmt (strip l) ++ strL "</p>"
  else l

/-- Lines 127-163: processing of a line in normal mode, given the current
`in_list` flag.  Returns the emitted fragments and the new `in_list`. -/
def normalFrags (in_list : Bool) (l : Str) : List Str × Bool :=
  if isHeader l then ([headerFrag l], in_list)
  else if isListLine l then
    ((if in_list then [] else [strL "<ul>"])
      ++ [strL "<li>" ++ fmt ((strip l).drop 2) ++ strL "</li>"], true)
  else ((if in_list then [strL "</ul>"] else []) ++ [defaultFrag l], false)

/-- One iteration of the `while i < len(lines)` loop (lines 57-165).
Order of the branches follows the source: code fences first (line 61),
then code-block buffering (line 79), then table rows (line 85), then
table closing (line 95) followed in the same pass by the normal-mode
rules (line 127). -/
def lineStep (st : PState) (line : Str) : PState :=
  if isFence line then
    if !st.in_code_block then
      { st with in_code_block := true, code_block_content := [] }
    else
      { st with
        in_code_block := false,
        result := st.result ++
          [strL "<pre><code>" ++ joinChar '\n' st.code_block_content ++ strL "</code></pre>"] }
  else if st.in_code_block then
    { st with code_block_content := st.code_block_content ++ [line] }
  else if isTableRow line then
    { st with
      in_table := true,
      table_rows := (if st.in_table then st.table_rows else []) ++ [cellsOf line] }
  else
    let st1 :=
      if st.in_table then
        { st with in_table := false, result := st.result ++ tableHTML st.table_rows }
      else st
    let nf := normalFrags st1.in_list line
    { st1 with result := st1.result ++ nf.1, in_list := nf.2 }

/-- Lines 57-169: run the loop over all lines, then force-close an open
list (line 168).  An unterminated code block or table is left unflushed,
exactly as in the source. -/
def parseLines (ls : List Str) : List Str :=
  let st := ls.foldl lineStep initState
  st.result ++ (if st.in_list then [strL "</ul>"] else [])

/-!  Ad injector: `insert_in_article_ads`, lines 188-245. -/

/-- The in-article ad fragment constant (lines 192-204), verbatim. -/
def adStr : Str := strL "\n<div class=\"ad-container\" style=\"margin: 30px 0; text-align: center;\">\n    <ins class=\"adsbygoogle\"\n         style=\"display:block; text-align:center;\"\n         data-ad-layout=\"in-article\"\n         data-ad-format=\"fluid\"\n         data-ad-client=\"ca-pub-6705222517983610\"\n         data-ad-slot=\"1879717900\"></ins>\n    <script>\n         (adsbygoogle = window.adsbygoogle || []).push(\x7b\x7d);\n    </script>\n</div>\n"

/-- Lazy search for a closing tag: the span before the first occurrence of
`closeT` (no newline allowed inside, matching `.` semantics of the
Python regexes) and the remainder after it. -/
def findCloseT (closeT : Str) : Str → Option (Str × Str)
  | [] => none
  | a :: rest =>
    if leadsWith closeT (a :: rest) then some ([], (a :: rest).drop closeT.length)
    else if a == '\n' then none
    else (findCloseT closeT rest).map (fun pr => (a :: pr.1, pr.2))

/-- Leftmost match of `openT .*? closeT`: returns
(text before the match, the match, text after). -/
def findTag (openT closeT : Str) : Str → Option (Str × Str × Str)
  | [] => none
  | c :: rest =>
    if leadsWith openT (c :: rest) then
      match findCloseT closeT ((c :: rest).drop openT.length) with
      | some (inner, after) => some ([], openT ++ inner ++ closeT, after)
      | none => (findTag openT closeT rest).map (fun pr => (c :: pr.1, pr.2))
    else (findTag openT closeT rest).map (fun pr => (c :: pr.1, pr.2))

/-- Python `re.split(r'(openT.*?closeT)', s)`: alternating non-match and
match pieces, empty pieces included.  Fuel-structural; each match consumes
at least one character so `length + 1` fuel never runs out. -/
def splitTagGo (openT closeT : Str) : Nat → Str → List Str
  | 0, s => [s]
  | fuel + 1, s =>
    match findTag openT closeT s with
    | none => [s]
    | some (pre, m, after) => pre :: m :: splitTagGo openT closeT fuel after

def splitTag (openT closeT s : Str) : List Str :=
  splitTagGo openT closeT (s.length + 1) s

/-- Line 207: `re.split(r'(<h2>.*?</h2>)', html_content)`. -/
def splitByH2 (s : Str) : List Str := splitTag (strL "<h2>") (strL "</h2>") s

/-- Line 232: `re.split(r'(<p>.*?</p>)', final_content)`. -/
def splitByP (s : Str) : List Str := splitTag (strL "<p>") (strL "</p>") s

/-- Line 216 / line 238: the piece tests `section.startswith('<h2>')` and
`part.startswith('<p>')`. -/
def isH2piece (s : Str) : Bool := leadsWith (strL "<h2>") s

def isPpiece (s : Str) : Bool := leadsWith (strL "<p>") s

/-- Line 220: insert after the 2nd and 4th `<h2>` section. -/
def trigH2 (c : Nat) : Bool := c == 2 || c == 4

/-- Line 240: insert after every 8th paragraph. -/
def trigP (c : Nat) : Bool := c % 8 == 0

/-- The two insertion loops (lines 209-221 and 233-241): walk the pieces,
count the pieces satisfying `P`, and append the ad after each counted
piece whose (incremented) count satisfies `T`.  Returns the output pieces
and the final count. -/
def adPass (P : Str → Bool) (T : Nat → Bool) : List Str → Nat → List Str × Nat
  | [], c => ([], c)
  | p :: rest, c =>
    if P p then
      let r := adPass P T rest (c + 1)
      if T (c + 1) then (p :: adStr :: r.1, r.2) else (p :: r.1, r.2)
    else
      let r := adPass P T rest c
      (p :: r.1, r.2)

/-- Line 227: `len(re.findall(r'<p>', final_content))` — the number of
non-overlapping occurrences of `pat`, scanning left to right.
Fuel-structural with fuel = input length. -/
def countSubGo (pat : Str) : Nat → Str → Nat
  | 0, _ => 0
  | fuel + 1, s =>
    match s with
    | [] => 0
    | c :: rest =>
      if leadsWith pat (c :: rest) then 1 + countSubGo pat fuel ((c :: rest).drop pat.length)
      else countSubGo pat fuel rest

def countSubstr (pat s : Str) : Nat := countSubGo pat s.length s

/-- Whether `pat` occurs anywhere in `s` (used to state "zero `<h2>`
occurrences"). -/
def containsSub (pat : Str) : Str → Bool
  | [] => leadsWith pat []
  | c :: rest => leadsWith pat (c :: rest) || containsSub pat rest

/-- `insert_in_article_ads` (lines 188-245): the `<h2>`-based pass, then —
only when the joined result has more than 15 paragraphs and fewer than 3
`<h2>` sections — the paragraph-based pass over the re-split content. -/
def insert_in_article_ads (s : Str) : Str :=
  let pr := adPass isH2piece trigH2 (splitByH2 s) 0
  let final_content := strConcat pr.1
  if 15 < countSubstr (strL "<p>") final_content && pr.2 < 3 then
    strConcat (adPass isPpiece trigP (splitByP final_content) 0).1
  else final_content

/-- `markdown_to_html` (lines 46-174): split into lines, run the block
parser, join the fragments with newlines, then inject ads. -/
def markdown_to_html (doc : Str) : Str :=
  insert_in_article_ads (joinChar '\n' (parseLines (splitChar '\n' doc)))

/-!  Generic lemmas about the insertion loop `adPass`. -/

theorem adPass_snd (P : Str → Bool) (T : Nat → Bool) (l : List Str) :
    ∀ c, (adPass P T l c).2 = c + l.countP P := by
  induction l with
  | nil => intro c; simp [adPass]
  | cons p rest ih =>
    intro c
    by_cases hp : P p = true
    · by_cases ht : T (c + 1) = true
      · simp [adPass, hp, ht, ih, List.countP_cons]; omega
      · simp only [Bool.not_eq_true] at ht
        simp [adPass, hp, ht, ih, List.countP_cons]; omega
    · simp only [Bool.not_eq_true] at hp
      simp [adPass, hp, ih, List.countP_cons]

theorem adPass_append (P : Str → Bool) (T : Nat → Bool) (xs : List Str) :
    ∀ (ys : List Str) (c : Nat),
      (adPass P T (xs ++ ys) c).1
        = (adPass P T xs c).1 ++ (adPass P T ys (c + xs.countP P)).1 := by
  induction xs with
  | nil => intro ys c; simp [adPass]
  | cons p rest ih =>
    intro ys c
    by_cases hp : P p = true
    · have harith : c + 1 + List.countP P rest = c + List.countP P (p :: rest) := by
        simp [List.countP_cons, hp]; omega
      by_cases ht : T (c + 1) = true
      · simp [adPass, hp, ht, ih, harith]
      · simp only [Bool.not_eq_true] at ht
        simp [adPass, hp, ht, ih, harith]
    · simp only [Bool.not_eq_true] at hp
      have harith : c + List.countP P rest = c + List.countP P (p :: rest) := by
        simp [List.countP_cons, hp]
      simp [adPass, hp, ih, harith]

theorem adPass_id (P : Str → Bool) (T : Nat → Bool) (l : List Str) :
    ∀ c, (∀ k, c < k → k ≤ c + l.countP P → T k = false) →
      (adPass P T l c).1 = l := by
  induction l with
  | nil => intro c _; simp [adPass]
  | cons p rest ih =>
    intro c hT
    by_cases hp : P p = true
    · have hTc : T (c + 1) = false := by
        refine hT (c + 1) (by omega) ?_
        simp [List.countP_cons, hp]
      have hrest : (adPass P T rest (c + 1)).1 = rest := by
        refine ih (c + 1) (fun k hk1 hk2 => hT k (by omega) ?_)
        simp [List.countP_cons, hp] at hk2 ⊢; omega
      simp [adPass, hp, hTc, hrest]
    · simp only [Bool.not_eq_true] at hp
      have hrest : (adPass P T rest c).1 = rest := by
        refine ih c (fun k hk1 hk2 => hT k hk1 ?_)
        simp [List.countP_cons, hp] at hk2 ⊢; omega
      simp [adPass, hp, hrest]

theorem adPass_cons_hit (P : Str → Bool) (T : Nat → Bool) (p : Str)
    (rest : List Str) (c : Nat) (hp : P p = true) (ht : T (c + 1) = true) :
    (adPass P T (p :: rest) c).1 = p :: adStr :: (adPass P T rest (c + 1)).1 := by
  simp [adPass, hp, ht]

/-- Split a list at its `(n+1)`-st element satisfying `P`. -/
theorem splitAtCount (P : Str → Bool) (l : List Str) :
    ∀ n : Nat, n + 1 ≤ l.countP P →
      ∃ a p b, l = a ++ p :: b ∧ a.countP P = n ∧ P p = true ∧
        l.countP P = n + 1 + b.countP P := by
  induction l with
  | nil => intro n h; simp at h
  | cons q rest ih =>
    intro n h
    by_cases hq : P q = true
    · match n with
      | 0 =>
        refine ⟨[], q, rest, by simp, by simp, hq, ?_⟩
        simp [List.countP_cons, hq]; omega
      | m + 1 =>
        have hm : m + 1 ≤ rest.countP P := by
          simp [List.countP_cons, hq] at h; omega
        obtain ⟨a, p, b, h1, h2, h3, h4⟩ := ih m hm
        refine ⟨q :: a, p, b, by simp [h1], ?_, h3, ?_⟩
        · simp [List.countP_cons, hq, h2]
        · simp [List.countP_cons, hq, h4]; omega
    · simp only [Bool.not_eq_true] at hq
      have hm : n + 1 ≤ rest.countP P := by
        simp [List.countP_cons, hq] at h; omega
      obtain ⟨a, p, b, h1, h2, h3, h4⟩ := ih n hm
      refine ⟨q :: a, p, b, by simp [h1], ?_, h3, ?_⟩
      · simp [List.countP_cons, hq, h2]
      · simp [List.countP_cons, hq, h4]

/-!  Runs of the block-parser loop. -/

/-- While inside a code block, non-fence lines are buffered verbatim and
nothing else in the state changes (lines 79-82). -/
theorem bufferRun (body : List Str) :
    ∀ st : PState, st.in_code_block = true →
      (∀ l ∈ body, isFence l = false) →
      body.foldl lineStep st =
        { st with code_block_content := st.code_block_content ++ body } := by
  induction body with
  | nil => intro st _ _; simp
  | cons l rest ih =>
    intro st hc hf
    have hfl : isFence l = false := hf l (by simp)
    have hstep : lineStep st l = { st with code_block_content := st.code_block_content ++ [l] } := by
      simp [lineStep, hfl, hc]
    rw [List.foldl_cons, hstep,
      ih _ (by simp [hc]) (fun x hx => hf x (by simp [hx]))]
    simp

/-- A complete fenced code block (opening fence, verbatim body, closing
fence) emits exactly one `<pre><code>…</code></pre>` fragment built from
the body joined with newlines, touching no other parser state
(lines 61-82). -/
theorem codeFenceRun (st : PState) (opn : Str) (body : List Str)
    (hst : st.in_code_block = false) (hop : isFence opn = true)
    (hb : ∀ l ∈ body, isFence l = false) :
    (opn :: body ++ [strL "```"]).foldl lineStep st =
      { st with
        in_code_block := false,
        code_block_content := body,
        result := st.result ++
          [strL "<pre><code>" ++ joinChar '\n' body ++ strL "</code></pre>"] } := by
  have h1 : lineStep st opn = { st with in_code_block := true, code_block_content := [] } := by
    simp [lineStep, hop, hst]
  have hcl : isFence (strL "```") = true := by decide
  rw [show (opn :: body ++ [strL "```"]).foldl lineStep st
        = (body ++ [strL "```"]).foldl lineStep (lineStep st opn) from rfl,
    h1, List.foldl_append, bufferRun body _ (by simp) hb]
  simp [lineStep, hcl]

/-- A table-row line is never a fence line. -/
theorem rowNotFence (r : Str) (h : isTableRow r = true) : isFence r = false := by
  simp only [isTableRow, Bool.and_eq_true] at h
  obtain ⟨⟨-, h2⟩, -⟩ := h
  simp only [isFence]
  cases hs : strip r with
  | nil => rw [hs] at h2; simp [strL, leadsWith] at h2
  | cons c cs =>
    rw [hs] at h2
    simp only [strL, leadsWith, Bool.and_eq_true, beq_iff_eq] at h2
    obtain ⟨hc, -⟩ := h2
    subst hc
    simp [strL, leadsWith]

/-- Accumulating further rows while a table is open (lines 85-94). -/
theorem rowRun2 (rs : List Str) :
    ∀ st : PState, st.in_code_block = false → st.in_table = true →
      (∀ r ∈ rs, isTableRow r = true) →
      rs.foldl lineStep st = { st with table_rows := st.table_rows ++ rs.map cellsOf } := by
  induction rs with
  | nil => intro st _ _ _; simp
  | cons r rest ih =>
    intro st hc ht hr
    have hrr : isTableRow r = true := hr r (by simp)
    have hstep : lineStep st r =
        { st with in_table := true, table_rows := st.table_rows ++ [cellsOf r] } := by
      simp [lineStep, rowNotFence r hrr, hc, hrr, ht]
    rw [List.foldl_cons, hstep,
      ih _ (by simp [hc]) (by simp) (fun x hx => hr x (by simp [hx]))]
    simp [ht]

/-- Opening a table from normal mode and accumulating its rows
(lines 85-94): the stale row buffer is discarded and the rows' cells are
collected in order. -/
theorem rowRun (r : Str) (rest : List Str) :
    ∀ st : PState, st.in_code_block = false → st.in_table = false →
      (∀ x ∈ r :: rest, isTableRow x = true) →
      (r :: rest).foldl lineStep st =
        { st with in_table := true, table_rows := (r :: rest).map cellsOf } := by
  intro st hc ht hr
  have hrr : isTableRow r = true := hr r (by simp)
  have hstep : lineStep st r =
      { st with in_table := true, table_rows := [cellsOf r] } := by
    simp [lineStep, rowNotFence r hrr, hc, hrr, ht]
  rw [List.foldl_cons, hstep,
    rowRun2 rest _ (by simp [hc]) (by simp) (fun x hx => hr x (by simp [hx]))]
  simp

/-!  Lemmas about tag splitting when the open tag does not occur. -/

theorem containsSub_head (pat s : Str) (h : containsSub pat s = false) :
    leadsWith pat s = false := by
  cases s with
  | nil => simpa [containsSub] using h
  | cons c rest =>
    simp only [containsSub, Bool.or_eq_false_iff] at h
    exact h.1

theorem findTag_none (openT closeT s : Str) (h : containsSub openT s = false) :
    findTag openT closeT s = none := by
  induction s with
  | nil => simp [findTag]
  | cons c rest ih =>
    simp only [containsSub, Bool.or_eq_false_iff] at h
    simp [findTag, h.1, ih h.2]

theorem splitTagGo_nomatch (openT closeT s : Str) (fuel : Nat)
    (h : findTag openT closeT s = none) :
    splitTagGo openT closeT fuel s = [s] := by
  cases fuel with
  | zero => simp [splitTagGo]
  | succ f => simp [splitTagGo, h]

theorem splitTag_nomatch (openT closeT s : Str) (h : containsSub openT s = false) :
    splitTag openT closeT s = [s] := by
  simp [splitTag, splitTagGo_nomatch _ _ _ _ (findTag_none openT closeT s h)]

/-!  Claim theorems. -/

/-- C6: a fenced code block delimited by plain ``` lines converts to
exactly one fragment, `<pre><code>` followed by the buffered lines joined
with newlines and `</code></pre>`, with no inline formatting applied to
the buffered lines (they are embedded verbatim, even when they contain
`**`), and no other parser state is affected. -/
theorem C6_code_block_verbatim (st : PState) (body : List Str)
    (hst : st.in_code_block = false)
    (hb : ∀ l ∈ body, isFence l = false) :
    (strL "```" :: body ++ [strL "```"]).foldl lineStep st =
      { st with
        in_code_block := false,
        code_block_content := body,
        result := st.result ++
          [strL "<pre><code>" ++ joinChar '\n' body ++ strL "</code></pre>"] } :=
  codeFenceRun st (strL "```") body hst (by decide) hb

theorem C6_witness :
    (initState.in_code_block = false ∧
      (∀ l ∈ [strL "**x**", strL "y"], isFence l = false)) ∧
    (strL "```" :: [strL "**x**", strL "y"] ++ [strL "```"]).foldl lineStep initState =
      { initState with
        in_code_block := false,
        code_block_content := [strL "**x**", strL "y"],
        result := initState.result ++
          [strL "<pre><code>" ++ joinChar '\n' [strL "**x**", strL "y"] ++ strL "</code></pre>"] } :=
  ⟨⟨rfl, by decide⟩,
    C6_code_block_verbatim initState [strL "**x**", strL "y"] rfl (by decide)⟩

/-- C9: an opening fence of the form three backticks followed by a
language tag produces the same plain `<pre><code>` block as a bare fence:
the emitted fragment does not depend on the tag at all, so the tag is
extracted and discarded and no language class or attribute appears. -/
theorem C9_language_tag_discarded (st : PState) (tag : Str) (body : List Str)
    (hst : st.in_code_block = false)
    (hop : isFence (strL "```" ++ tag) = true)
    (hb : ∀ l ∈ body, isFence l = false) :
    ((strL "```" ++ tag) :: body ++ [strL "```"]).foldl lineStep st =
      { st with
        in_code_block := false,
        code_block_content := body,
        result := st.result ++
          [strL "<pre><code>" ++ joinChar '\n' body ++ strL "</code></pre>"] } :=
  codeFenceRun st (strL "```" ++ tag) body hst hop hb

theorem C9_witness :
    (initState.in_code_block = false ∧
      isFence (strL "```" ++ strL "python") = true ∧
      (∀ l ∈ [strL "code line"], isFence l = false)) ∧
    ((strL "```" ++ strL "python") :: [strL "code line"] ++ [strL "```"]).foldl lineStep initState =
      { initState with
        in_code_block := false,
        code_block_content := [strL "code line"],
        result := initState.result ++
          [strL "<pre><code>" ++ joinChar '\n' [strL "code line"] ++ strL "</code></pre>"] } :=
  ⟨⟨rfl, by decide, by decide⟩,
    C9_language_tag_discarded initState (strL "python") [strL "code line"] rfl
      (by decide) (by decide)⟩

/-- C7: when a run of table rows is followed by a line that is neither a
table row nor a fence, that line closes the table — the accumulated rows
are emitted as the table's HTML fragments — and the very same line is then
processed by the remaining normal-mode rules in the same pass, its own
fragments following the table's, with table mode off afterwards. -/
theorem C7_closing_line_reprocessed (st : PState) (r : Str) (rs : List Str) (l : Str)
    (hc : st.in_code_block = false) (ht : st.in_table = false)
    (hrows : ∀ x ∈ r :: rs, isTableRow x = true)
    (hl1 : isTableRow l = false) (hl2 : isFence l = false) :
    (((r :: rs) ++ [l]).foldl lineStep st).result
        = st.result ++ tableHTML ((r :: rs).map cellsOf) ++ (normalFrags st.in_list l).1
    ∧ (((r :: rs) ++ [l]).foldl lineStep st).in_table = false := by
  rw [List.foldl_append, rowRun r rs st hc ht hrows]
  constructor
  · simp [lineStep, hl1, hl2, hc]
  · simp [lineStep, hl1, hl2, hc]

theorem C7_witness :
    (initState.in_code_block = false ∧ initState.in_table = false ∧
      (∀ x ∈ [strL "| a |"], isTableRow x = true) ∧
      isTableRow (strL "x") = false ∧ isFence (strL "x") = false) ∧
    ((([strL "| a |"]) ++ [strL "x"]).foldl lineStep initState).result
        = initState.result ++ tableHTML ([strL "| a |"].map cellsOf)
          ++ (normalFrags initState.in_list (strL "x")).1
    ∧ ((([strL "| a |"]) ++ [strL "x"]).foldl lineStep initState).in_table = false :=
  ⟨⟨rfl, rfl, by decide, by decide, by decide⟩,
    C7_closing_line_reprocessed initState (strL "| a |") [] (strL "x")
      rfl rfl (by decide) (by decide) (by decide)⟩

/-- C10: a line whose trimmed content is a single pipe passes the
table-row test and contributes a row with zero cells; a zero-cell second
row makes the separator test vacuously true (body rows start at index 2,
dropping it); a zero-cell first row produces a `<thead>` whose `<tr>`
contains no `<th>` fragment between its opening and closing fragments. -/
theorem C10_single_pipe_row :
    (isTableRow (strL "|") = true ∧ cellsOf (strL "|") = []) ∧
    (∀ (r1 : List Str) (rest : List (List Str)),
      startRow (r1 :: ([] : List Str) :: rest) = 2) ∧
    (∀ rest : List (List Str),
      tableHTML (([] : List Str) :: rest) =
        strL "<table>" :: strL "<thead><tr>" :: strL "</tr></thead>"
          :: bodyFrags ((([] : List Str) :: rest).drop (startRow (([] : List Str) :: rest)))
          ++ [strL "</table>"]) := by
  refine ⟨by decide, fun r1 rest => by simp [startRow], fun rest => ?_⟩
  simp [tableHTML, headerFrags]

/-- C3: in a three-row table, when every cell of row 2 is the literal
`---` the emitted table has a `<thead>` from row 1 and a `<tbody>` holding
only row 3; when some cell of row 2 contains no hyphen the `<tbody>` holds
both row 2 and row 3; and row 2 is dropped as a separator (body rows start
at index 2) exactly when every one of its cells contains a hyphen. -/
theorem C3_separator_row (r1 r2 r3 : List Str) :
    ((∀ c ∈ r2, c = strL "---") →
      tableHTML [r1, r2, r3] =
        strL "<table>" :: headerFrags r1
          ++ (strL "<tbody>" :: rowFrags r3 ++ [strL "</tbody>"]) ++ [strL "</table>"]) ∧
    ((¬ ∀ c ∈ r2, '-' ∈ c) →
      tableHTML [r1, r2, r3] =
        strL "<table>" :: headerFrags r1
          ++ (strL "<tbody>" :: (rowFrags r2 ++ rowFrags r3) ++ [strL "</tbody>"])
          ++ [strL "</table>"]) ∧
    (startRow [r1, r2, r3] = 2 ↔ ∀ c ∈ r2, '-' ∈ c) := by
  refine ⟨?_, ?_, ?_⟩
  · intro h
    have hProp : ∀ x ∈ r2, '-' ∈ x := fun x hx => by rw [h x hx]; decide
    simp [tableHTML, startRow, bodyFrags]
    rw [if_pos hProp]
    simp
  · intro h
    simp [tableHTML, startRow, bodyFrags, h]
  · by_cases hx : ∀ x ∈ r2, '-' ∈ x
    · simp [startRow, hx]
    · simp [startRow, hx]

theorem C3_witness :
    ((∀ c ∈ [strL "---", strL "---"], c = strL "---") ∧
      ¬ ∀ c ∈ [strL "x", strL "---"], '-' ∈ c) ∧
    tableHTML [[strL "A"], [strL "---", strL "---"], [strL "B"]] =
      strL "<table>" :: headerFrags [strL "A"]
        ++ (strL "<tbody>" :: rowFrags [strL "B"] ++ [strL "</tbody>"]) ++ [strL "</table>"] ∧
    tableHTML [[strL "A"], [strL "x", strL "---"], [strL "B"]] =
      strL "<table>" :: headerFrags [strL "A"]
        ++ (strL "<tbody>" :: (rowFrags [strL "x", strL "---"] ++ rowFrags [strL "B"])
            ++ [strL "</tbody>"]) ++ [strL "</table>"] :=
  ⟨⟨by decide, by decide⟩,
    (C3_separator_row [strL "A"] [strL "---", strL "---"] [strL "B"]).1 (by decide),
    (C3_separator_row [strL "A"] [strL "x", strL "---"] [strL "B"]).2.1 (by decide)⟩

/-- Helper: a line starting with `## ` does not start with `### `. -/
theorem h2_not_h3 (l : Str) (h : leadsWith (strL "## ") l = true) :
    leadsWith (strL "### ") l = false := by
  match l with
  | [] => simp [strL, leadsWith] at h
  | [a] => simp [strL, leadsWith] at h
  | [a, b] => simp [strL, leadsWith] at h
  | a :: b :: c :: l3 =>
    simp only [strL, leadsWith, Bool.and_eq_true, beq_iff_eq] at h
    obtain ⟨h1, h2, h3, -⟩ := h
    subst h3
    simp [strL, leadsWith]

/-- Helper: a line starting with `# ` starts with neither `## ` nor `### `. -/
theorem h1_not_h2h3 (l : Str) (h : leadsWith (strL "# ") l = true) :
    leadsWith (strL "## ") l = false ∧ leadsWith (strL "### ") l = false := by
  match l with
  | [] => simp [strL, leadsWith] at h
  | [a] => simp [strL, leadsWith] at h
  | a :: b :: l2 =>
    simp only [strL, leadsWith, Bool.and_eq_true, beq_iff_eq] at h
    obtain ⟨h1, h2, -⟩ := h
    subst h2
    constructor
    · simp [strL, leadsWith]
    · simp [strL, leadsWith]

/-- C1 counterexample: in the document `- a\n## H` list mode is open when
the header line is met, yet the fragment emitted right after the last list
item is the header itself, not the closing `</ul>` — the list is closed
only afterwards.  This refutes the claim that `</ul>` precedes the
fragment of every non-list line. -/
theorem C1_counterexample :
    parseLines [strL "- a", strL "## H"] =
      [strL "<ul>", strL "<li>a</li>", strL "<h2>H</h2>", strL "</ul>"] ∧
    (parseLines [strL "- a", strL "## H"]).get? 2 ≠ some (strL "</ul>") := by
  constructor
  · decide
  · decide

/-- C1 amended: while list mode is open, a header line (prefix `### `,
`## ` or `# `) is emitted as its header fragment alone, with the
closing `</ul>` NOT emitted and list mode left open; only a line that is
neither a header nor a list item first emits the closing `</ul>` and then
its own fragment. -/
theorem C1_amended_list_closing (l : Str) :
    (leadsWith (strL "### ") l = true →
      normalFrags true l = ([strL "<h3>" ++ fmt (l.drop 4) ++ strL "</h3>"], true)) ∧
    (leadsWith (strL "## ") l = true →
      normalFrags true l = ([strL "<h2>" ++ fmt (l.drop 3) ++ strL "</h2>"], true)) ∧
    (leadsWith (strL "# ") l = true →
      normalFrags true l = ([strL "<h1>" ++ fmt (l.drop 2) ++ strL "</h1>"], true)) ∧
    (isHeader l = false → isListLine l = false →
      normalFrags true l = ([strL "</ul>", defaultFrag l], false)) := by
  refine ⟨?_, ?_, ?_, ?_⟩
  · intro h
    simp [normalFrags, isHeader, headerFrag, h]
  · intro h
    simp [normalFrags, isHeader, headerFrag, h, h2_not_h3 l h]
  · intro h
    obtain ⟨hx2, hx3⟩ := h1_not_h2h3 l h
    simp [normalFrags, isHeader, headerFrag, h, hx2, hx3]
  · intro h1 h2
    simp [normalFrags, h1, h2]

theorem C1_witness :
    (leadsWith (strL "## ") (strL "## H") = true ∧
      normalFrags true (strL "## H") =
        ([strL "<h2>" ++ fmt ((strL "## H").drop 3) ++ strL "</h2>"], true)) ∧
    (isHeader (strL "x") = false ∧ isListLine (strL "x") = false ∧
      normalFrags true (strL "x") = ([strL "</ul>", defaultFrag (strL "x")], false)) :=
  ⟨⟨by decide, (C1_amended_list_closing (strL "## H")).2.1 (by decide)⟩,
    ⟨by decide, by decide,
      (C1_amended_list_closing (strL "x")).2.2.2 (by decide) (by decide)⟩⟩

/-- C2 counterexample: a document that ends inside a code block
(```` ``` ````, then `x`, never closed) converts to the empty string: the
buffered line `x` is silently dropped, with no fallback output; likewise a
document that is a single unterminated table row converts to the empty
string.  This refutes the claim that buffered content is not silently
dropped. -/
theorem C2_counterexample :
    markdown_to_html (strL "```\nx") = [] ∧ markdown_to_html (strL "|a|") = [] := by
  constructor
  · decide
  · decide

/-- C2 amended: an input that ends while still inside a code block or a
table silently drops the whole buffered construct — the parser emits no
fragments at all for it (so no partial or inconsistent tags either): a
document consisting of an opening fence plus buffered lines yields no
fragments, and a document consisting solely of table rows yields no
fragments. -/
theorem C2_amended_silent_drop :
    (∀ body : List Str, (∀ l ∈ body, isFence l = false) →
      parseLines (strL "```" :: body) = []) ∧
    (∀ (r : Str) (rs : List Str), (∀ x ∈ r :: rs, isTableRow x = true) →
      parseLines (r :: rs) = []) := by
  constructor
  · intro body hb
    have h1 : lineStep initState (strL "```") =
        { initState with in_code_block := true, code_block_content := [] } := by decide
    simp only [parseLines]
    rw [show List.foldl lineStep initState (strL "```" :: body)
          = List.foldl lineStep (lineStep initState (strL "```")) body from rfl,
      h1, bufferRun body _ (by decide) hb]
    simp [initState]
  · intro r rs hr
    simp only [parseLines]
    rw [rowRun r rs initState rfl rfl hr]
    simp [initState]

theorem C2_witness :
    ((∀ l ∈ [strL "x"], isFence l = false) ∧
      (∀ x ∈ [strL "|a|"], isTableRow x = true)) ∧
    parseLines [strL "```", strL "x"] = [] ∧
    parseLines [strL "|a|"] = [] :=
  ⟨⟨by decide, by decide⟩,
    C2_amended_silent_drop.1 [strL "x"] (by decide),
    C2_amended_silent_drop.2 (strL "|a|") [] (by decide)⟩

/-- C4: when the body splits into pieces of which exactly five start with
`<h2>` (and it has fewer than 16 `<p>` occurrences), the injector's output
is the pieces joined back with exactly one ad fragment inserted
immediately after the 2nd `<h2>` piece and one immediately after the 4th,
and nowhere else: the output piece list carries exactly two more copies of
the ad fragment than the input pieces did. -/
theorem C4_two_ads_after_h2 (s : Str)
    (h5 : (splitByH2 s).countP isH2piece = 5)
    (_hp : countSubstr (strL "<p>") s < 16) :
    ∃ a p2 b p4 c,
      splitByH2 s = a ++ p2 :: (b ++ p4 :: c) ∧
      a.countP isH2piece = 1 ∧ isH2piece p2 = true ∧
      b.countP isH2piece = 1 ∧ isH2piece p4 = true ∧
      c.countP isH2piece = 1 ∧
      insert_in_article_ads s =
        strConcat (a ++ p2 :: adStr :: (b ++ p4 :: adStr :: c)) ∧
      (a ++ p2 :: adStr :: (b ++ p4 :: adStr :: c)).count adStr
        = (splitByH2 s).count adStr + 2 := by
  obtain ⟨a, p2, b0, hsp, ha, hp2, hcnt⟩ :=
    splitAtCount isH2piece (splitByH2 s) 1 (by omega)
  have hb0 : b0.countP isH2piece = 3 := by omega
  obtain ⟨b, p4, c, hsp2, hb, hp4, hcnt2⟩ := splitAtCount isH2piece b0 1 (by omega)
  have hc : c.countP isH2piece = 1 := by omega
  subst hsp2
  refine ⟨a, p2, b, p4, c, hsp, ha, hp2, hb, hp4, hc, ?_, ?_⟩
  · -- compute the first insertion pass
    have hpass : (adPass isH2piece trigH2 (splitByH2 s) 0).1
        = a ++ p2 :: adStr :: (b ++ p4 :: adStr :: c) := by
      rw [hsp, adPass_append, ha,
        adPass_id isH2piece trigH2 a 0 (by
          intro k h1 h2
          rw [ha] at h2
          have : k = 1 := by omega
          subst this
          decide),
        adPass_cons_hit isH2piece trigH2 p2 _ 1 hp2 (by decide),
        adPass_append, hb,
        adPass_id isH2piece trigH2 b 2 (by
          intro k h1 h2
          rw [hb] at h2
          have : k = 3 := by omega
          subst this
          decide),
        adPass_cons_hit isH2piece trigH2 p4 _ 3 hp4 (by decide),
        adPass_id isH2piece trigH2 c 4 (by
          intro k h1 h2
          rw [hc] at h2
          have : k = 5 := by omega
          subst this
          decide)]
    have hsec : (adPass isH2piece trigH2 (splitByH2 s) 0).2 = 5 := by
      rw [adPass_snd, h5]
    simp only [insert_in_article_ads, hsec, hpass]
    simp
  · have hne2 : p2 ≠ adStr := by
      intro he
      rw [he] at hp2
      revert hp2
      decide
    have hne4 : p4 ≠ adStr := by
      intro he
      rw [he] at hp4
      revert hp4
      decide
    rw [hsp]
    simp [List.count_append, List.count_cons, hne2, hne4]
    omega

theorem C4_witness :
    ((splitByH2 (strL "<h2>a</h2><h2>b</h2><h2>c</h2><h2>d</h2><h2>e</h2>")).countP isH2piece = 5 ∧
      countSubstr (strL "<p>") (strL "<h2>a</h2><h2>b</h2><h2>c</h2><h2>d</h2><h2>e</h2>") < 16) ∧
    (∃ a p2 b p4 c,
      splitByH2 (strL "<h2>a</h2><h2>b</h2><h2>c</h2><h2>d</h2><h2>e</h2>")
        = a ++ p2 :: (b ++ p4 :: c) ∧
      a.countP isH2piece = 1 ∧ isH2piece p2 = true ∧
      b.countP isH2piece = 1 ∧ isH2piece p4 = true ∧
      c.countP isH2piece = 1 ∧
      insert_in_article_ads (strL "<h2>a</h2><h2>b</h2><h2>c</h2><h2>d</h2><h2>e</h2>") =
        strConcat (a ++ p2 :: adStr :: (b ++ p4 :: adStr :: c)) ∧
      (a ++ p2 :: adStr :: (b ++ p4 :: adStr :: c)).count adStr
        = (splitByH2 (strL "<h2>a</h2><h2>b</h2><h2>c</h2><h2>d</h2><h2>e</h2>")).count adStr + 2) :=
  ⟨⟨by decide, by decide⟩,
    C4_two_ads_after_h2 (strL "<h2>a</h2><h2>b</h2><h2>c</h2><h2>d</h2><h2>e</h2>")
      (by decide) (by decide)⟩

/-- C5: when the body contains no `<h2>` occurrence at all and exactly 24
paragraphs, the header-based pass leaves it unchanged (contributing no
ads) and the paragraph-based pass fires, producing the paragraph pieces
joined back with exactly one ad fragment immediately after the 8th, 16th
and 24th `<p>` piece and nowhere else: three more copies of the ad
fragment than the input pieces carried. -/
theorem C5_three_ads_after_paragraphs (s : Str)
    (hh2 : containsSub (strL "<h2>") s = false)
    (hpc : countSubstr (strL "<p>") s = 24)
    (h24 : (splitByP s).countP isPpiece = 24) :
    ∃ a1 p1 a2 p2 a3 p3 t,
      splitByP s = a1 ++ p1 :: (a2 ++ p2 :: (a3 ++ p3 :: t)) ∧
      a1.countP isPpiece = 7 ∧ isPpiece p1 = true ∧
      a2.countP isPpiece = 7 ∧ isPpiece p2 = true ∧
      a3.countP isPpiece = 7 ∧ isPpiece p3 = true ∧
      t.countP isPpiece = 0 ∧
      insert_in_article_ads s =
        strConcat (a1 ++ p1 :: adStr :: (a2 ++ p2 :: adStr :: (a3 ++ p3 :: adStr :: t))) ∧
      (a1 ++ p1 :: adStr :: (a2 ++ p2 :: adStr :: (a3 ++ p3 :: adStr :: t))).count adStr
        = (splitByP s).count adStr + 3 ∧
      strConcat (adPass isH2piece trigH2 (splitByH2 s) 0).1 = s := by
  have hsplitH2 : splitByH2 s = [s] :=
    splitTag_nomatch (strL "<h2>") (strL "</h2>") s hh2
  have hH2s : isH2piece s = false := containsSub_head (strL "<h2>") s hh2
  have hfc : strConcat (adPass isH2piece trigH2 (splitByH2 s) 0).1 = s := by
    rw [hsplitH2]
    simp [adPass, hH2s, strConcat]
  have hsec : (adPass isH2piece trigH2 (splitByH2 s) 0).2 = 0 := by
    rw [adPass_snd, hsplitH2]
    simp [List.countP_cons, hH2s]
  obtain ⟨a1, p1, b1, hs1, ha1, hp1, hc1⟩ :=
    splitAtCount isPpiece (splitByP s) 7 (by omega)
  have hb1 : b1.countP isPpiece = 16 := by omega
  obtain ⟨a2, p2, b2, hs2, ha2, hp2, hc2⟩ := splitAtCount isPpiece b1 7 (by omega)
  have hb2 : b2.countP isPpiece = 8 := by omega
  obtain ⟨a3, p3, t, hs3, ha3, hp3, hc3⟩ := splitAtCount isPpiece b2 7 (by omega)
  have ht : t.countP isPpiece = 0 := by omega
  subst hs3
  subst hs2
  refine ⟨a1, p1, a2, p2, a3, p3, t, hs1, ha1, hp1, ha2, hp2, ha3, hp3, ht, ?_, ?_, hfc⟩
  · have hpass : (adPass isPpiece trigP (splitByP s) 0).1
        = a1 ++ p1 :: adStr :: (a2 ++ p2 :: adStr :: (a3 ++ p3 :: adStr :: t)) := by
      rw [hs1, adPass_append, ha1,
        adPass_id isPpiece trigP a1 0 (by
          intro k h1 h2
          rw [ha1] at h2
          simp only [trigP, beq_eq_false_iff_ne]
          omega),
        adPass_cons_hit isPpiece trigP p1 _ 7 hp1 (by decide),
        adPass_append, ha2,
        adPass_id isPpiece trigP a2 8 (by
          intro k h1 h2
          rw [ha2] at h2
          simp only [trigP, beq_eq_false_iff_ne]
          omega),
        adPass_cons_hit isPpiece trigP p2 _ 15 hp2 (by decide),
        adPass_append, ha3,
        adPass_id isPpiece trigP a3 16 (by
          intro k h1 h2
          rw [ha3] at h2
          simp only [trigP, beq_eq_false_iff_ne]
          omega),
        adPass_cons_hit isPpiece trigP p3 _ 23 hp3 (by decide),
        adPass_id isPpiece trigP t 24 (fun k h1 h2 => absurd h2 (by rw [ht]; omega))]
    have hcond : (15 < countSubstr (strL "<p>")
          (strConcat (adPass isH2piece trigH2 (splitByH2 s) 0).1)
        && (adPass isH2piece trigH2 (splitByH2 s) 0).2 < 3) = true := by
      rw [hfc, hpc, hsec]
      decide
    simp only [insert_in_article_ads, hcond, if_true]
    rw [hfc, hpass]
  · have hne1 : p1 ≠ adStr := by
      intro he
      rw [he] at hp1
      revert hp1
      decide
    have hne2 : p2 ≠ adStr := by
      intro he
      rw [he] at hp2
      revert hp2
      decide
    have hne3 : p3 ≠ adStr := by
      intro he
      rw [he] at hp3
      revert hp3
      decide
    rw [hs1]
    simp [List.count_append, List.count_cons, hne1, hne2, hne3]
    omega

theorem C5_witness :
    (containsSub (strL "<h2>") (strL "<p>a</p><p>a</p><p>a</p><p>a</p><p>a</p><p>a</p><p>a</p><p>a</p><p>a</p><p>a</p><p>a</p><p>a</p><p>a</p><p>a</p><p>a</p><p>a</p><p>a</p><p>a</p><p>a</p><p>a</p><p>a</p><p>a</p><p>a</p><p>a</p>") = false ∧
      countSubstr (strL "<p>") (strL "<p>a</p><p>a</p><p>a</p><p>a</p><p>a</p><p>a</p><p>a</p><p>a</p><p>a</p><p>a</p><p>a</p><p>a</p><p>a</p><p>a</p><p>a</p><p>a</p><p>a</p><p>a</p><p>a</p><p>a</p><p>a</p><p>a</p><p>a</p><p>a</p>") = 24 ∧
      (splitByP (strL "<p>a</p><p>a</p><p>a</p><p>a</p><p>a</p><p>a</p><p>a</p><p>a</p><p>a</p><p>a</p><p>a</p><p>a</p><p>a</p><p>a</p><p>a</p><p>a</p><p>a</p><p>a</p><p>a</p><p>a</p><p>a</p><p>a</p><p>a</p><p>a</p>")).countP isPpiece = 24) ∧
    (∃ a1 p1 a2 p2 a3 p3 t,
      splitByP (strL "<p>a</p><p>a</p><p>a</p><p>a</p><p>a</p><p>a</p><p>a</p><p>a</p><p>a</p><p>a</p><p>a</p><p>a</p><p>a</p><p>a</p><p>a</p><p>a</p><p>a</p><p>a</p><p>a</p><p>a</p><p>a</p><p>a</p><p>a</p><p>a</p>") = a1 ++ p1 :: (a2 ++ p2 :: (a3 ++ p3 :: t)) ∧
      a1.countP isPpiece = 7 ∧ isPpiece p1 = true ∧
      a2.countP isPpiece = 7 ∧ isPpiece p2 = true ∧
      a3.countP isPpiece = 7 ∧ isPpiece p3 = true ∧
      t.countP isPpiece = 0 ∧
      insert_in_article_ads (strL "<p>a</p><p>a</p><p>a</p><p>a</p><p>a</p><p>a</p><p>a</p><p>a</p><p>a</p><p>a</p><p>a</p><p>a</p><p>a</p><p>a</p><p>a</p><p>a</p><p>a</p><p>a</p><p>a</p><p>a</p><p>a</p><p>a</p><p>a</p><p>a</p>") =
        strConcat (a1 ++ p1 :: adStr :: (a2 ++ p2 :: adStr :: (a3 ++ p3 :: adStr :: t))) ∧
      (a1 ++ p1 :: adStr :: (a2 ++ p2 :: adStr :: (a3 ++ p3 :: adStr :: t))).count adStr
        = (splitByP (strL "<p>a</p><p>a</p><p>a</p><p>a</p><p>a</p><p>a</p><p>a</p><p>a</p><p>a</p><p>a</p><p>a</p><p>a</p><p>a</p><p>a</p><p>a</p><p>a</p><p>a</p><p>a</p><p>a</p><p>a</p><p>a</p><p>a</p><p>a</p><p>a</p>")).count adStr + 3 ∧
      strConcat (adPass isH2piece trigH2 (splitByH2 (strL "<p>a</p><p>a</p><p>a</p><p>a</p><p>a</p><p>a</p><p>a</p><p>a</p><p>a</p><p>a</p><p>a</p><p>a</p><p>a</p><p>a</p><p>a</p><p>a</p><p>a</p><p>a</p><p>a</p><p>a</p><p>a</p><p>a</p><p>a</p><p>a</p>")) 0).1 = strL "<p>a</p><p>a</p><p>a</p><p>a</p><p>a</p><p>a</p><p>a</p><p>a</p><p>a</p><p>a</p><p>a</p><p>a</p><p>a</p><p>a</p><p>a</p><p>a</p><p>a</p><p>a</p><p>a</p><p>a</p><p>a</p><p>a</p><p>a</p><p>a</p>") :=
  ⟨⟨by decide, by decide, by decide⟩,
    C5_three_ads_after_paragraphs (strL "<p>a</p><p>a</p><p>a</p><p>a</p><p>a</p><p>a</p><p>a</p><p>a</p><p>a</p><p>a</p><p>a</p><p>a</p><p>a</p><p>a</p><p>a</p><p>a</p><p>a</p><p>a</p><p>a</p><p>a</p><p>a</p><p>a</p><p>a</p><p>a</p>") (by decide) (by decide) (by decide)⟩

/-- C8 counterexample: the ad injector is not idempotent.  For a body
with two `<h2>` headers, re-running the injector on its own output
inserts one more ad fragment immediately after the 2nd header — the very
position the first run already filled — because a fresh count of the
(unchanged) `<h2>` occurrences dictates the same insertion point again. -/
theorem C8_counterexample :
    insert_in_article_ads (insert_in_article_ads (strL "<h2>a</h2><h2>b</h2>"))
      ≠ insert_in_article_ads (strL "<h2>a</h2><h2>b</h2>") := by
  decide

/-- C8 amended: the ad fragment itself contains no `<h2>` and no `<p>`
occurrence, so re-running the injector sees exactly the original header
and paragraph counts; consequently the re-run inserts ads again at the
positions a fresh count dictates — the previously filled ones — rather
than leaving the output unchanged: for a two-header body the first run
appends one ad after the 2nd header and the second run appends one more
at that same position. -/
theorem C8_rerun_inserts_again :
    countSubstr (strL "<h2>") adStr = 0 ∧
    countSubstr (strL "<p>") adStr = 0 ∧
    insert_in_article_ads (strL "<h2>a</h2><h2>b</h2>")
      = strL "<h2>a</h2><h2>b</h2>" ++ adStr ∧
    insert_in_article_ads (strL "<h2>a</h2><h2>b</h2>" ++ adStr)
      = (strL "<h2>a</h2><h2>b</h2>" ++ adStr) ++ adStr := by
  refine ⟨by decide, by decide, by decide, by decide⟩
